import Mathlib

set_option maxRecDepth 100000

/-!
Verification development for the resona playback engine.

The definitions below are a shallow embedding of the Go source:

* the radio-station library's playlist-manifest resolution
  (AddStation, resolvePlaylistURL, parsePLS, parseM3U),
* the playback engine (AudioPlayer: Play, Pause, Resume, TogglePause,
  Stop, IsPlaying, IsPaused, GetPosition, GetDuration, GetProgress,
  GetAudioSamples, playWithFallback, PlayRadioStation),
* the visualizer sample tap (SampleCaptureStreamer.Stream / Err and
  analyzeAndStore).

Wall-clock timestamps (Go time.Time / time.Duration, read as seconds)
and float64 quantities are modelled as exact rationals; the float64
square root used by the band-RMS computation is passed in as an
explicit function parameter.  Operations that in Go perform I/O
(opening files, HTTP requests, decoding) are modelled by oracle
function parameters describing the outcome of each such call.
-/

/-! ## String helpers (strings.Contains / HasPrefix / TrimSpace / SplitN) -/

/-- Membership of 'pat' as a contiguous run inside 'l'
(the char-list form of strings.Contains). -/
def listContains (pat : List Char) : List Char → Bool
  | [] => pat.isEmpty
  | c :: rest => pat.isPrefixOf (c :: rest) || listContains pat rest

/-- Embedding of strings.Contains. -/
def strContains (s pat : String) : Bool :=
  listContains pat.toList s.toList

/-- Embedding of strings.HasPrefix. -/
def strStartsWith (s pat : String) : Bool :=
  pat.toList.isPrefixOf s.toList

/-- Whether 'pat' is a contiguous run at the end of 's' (strings.HasSuffix;
used only to state the spec's suffix heuristic, the code itself never
performs a suffix match). -/
def strEndsWith (s pat : String) : Bool :=
  pat.toList.isPrefixOf (s.toList.drop (s.toList.length - pat.toList.length))

/-- Embedding of strings.TrimSpace, producing the char list of the result. -/
def trimChars (s : String) : List Char :=
  ((s.toList.dropWhile Char.isWhitespace).reverse.dropWhile Char.isWhitespace).reverse

/-- Characters strictly after the first occurrence of 'sep'
(strings.SplitN(line, sep, 2)[1], on a line known to contain 'sep'). -/
def afterFirst (sep : Char) : List Char → List Char
  | [] => []
  | c :: rest => if c = sep then rest else afterFirst sep rest

/-! ## Stream source resolver: manifest detection and PLS/M3U parsing -/

/-- Error outcomes of playlist resolution (resolvePlaylistURL and its
parsers; fetchFailed covers both transport errors and non-200 status). -/
inductive ParseError where
  | fetchFailed
  | noStreamPLS
  | noStreamM3U
  | unsupportedPlaylist
  deriving DecidableEq, Repr

/-- Manifest detection as the code performs it: AddStation (and the
dispatch inside resolvePlaylistURL) tests
strings.Contains(url, ".pls") || strings.Contains(url, ".m3u"). -/
def isManifestURL (url : String) : Bool :=
  strContains url ".pls" || strContains url ".m3u"

/-- Modelled from the spec: the claim's detection rule, a suffix match
on the URL's path (".pls", ".m3u" or ".m3u8").  Stated here on the path
string itself for comparison with isManifestURL. -/
def isManifestBySuffix (path : String) : Bool :=
  strEndsWith path ".pls" || strEndsWith path ".m3u" || strEndsWith path ".m3u8"

/-- One line of a PLS body, as parsePLS treats it: after TrimSpace, the
line must start with "File" and contain "=", and the part after the
first "=" must start with "http"; that part is the extracted URL. -/
def plsLineURL (line : String) : Option String :=
  let l := trimChars line
  if "File".toList.isPrefixOf l && listContains "=".toList l then
    let value := afterFirst '=' l
    if "http".toList.isPrefixOf value then some value.asString else none
  else none

/-- Modelled from the spec: a line of the exact form FileN=value with N
a non-empty run of decimal digits and value starting with "http", as the
claim's "lines of the form FileN=value" reads. -/
def plsLineURLNumeric (line : String) : Option String :=
  let l := trimChars line
  if "File".toList.isPrefixOf l then
    let rest := l.drop 4
    let digits := rest.takeWhile Char.isDigit
    match rest.drop digits.length with
    | c :: value =>
        if c == '=' && (!digits.isEmpty && "http".toList.isPrefixOf value) then
          some value.asString
        else none
    | [] => none
  else none

/-- Embedding of parsePLS: collect the qualifying lines in file order,
error when none qualifies. -/
def parsePLS (lines : List String) : Except ParseError (List String) :=
  let urls := lines.filterMap plsLineURL
  if urls.isEmpty then .error .noStreamPLS else .ok urls

/-- One line of an M3U body, as parseM3U treats it: after TrimSpace the
line must be non-empty, not start with "#", and start with "http"; the
whole trimmed line is the URL. -/
def m3uLineURL (line : String) : Option String :=
  let l := trimChars line
  if !l.isEmpty && !("#".toList.isPrefixOf l) && "http".toList.isPrefixOf l then
    some l.asString
  else none

/-- Embedding of parseM3U. -/
def parseM3U (lines : List String) : Except ParseError (List String) :=
  let urls := lines.filterMap m3uLineURL
  if urls.isEmpty then .error .noStreamM3U else .ok urls

/-- Embedding of resolvePlaylistURL.  The HTTP GET of the playlist body
is modelled by the oracle 'fetch', returning either a fetch failure or
the body's lines (bufio.Scanner yields the body line by line). -/
def resolvePlaylistURL (fetch : String → Except ParseError (List String))
    (playlistURL : String) : Except ParseError (List String) :=
  match fetch playlistURL with
  | .error e => .error e
  | .ok lines =>
    if strContains playlistURL ".pls" then parsePLS lines
    else if strContains playlistURL ".m3u" then parseM3U lines
    else .error .unsupportedPlaylist

/-- Embedding of the RadioStation record (JSON bookkeeping fields that
no claim touches are carried as plain data; timestamps are rationals). -/
structure RadioStation where
  name : String
  url : String
  streamURL : String
  streamURLs : List String
  genre : String
  addedAt : ℚ
  lastPlayed : ℚ
  deriving DecidableEq, Repr

/-- Embedding of AddStation's stream-URL resolution: stamp addedAt, then
either resolve the manifest (primary URL is element 0 of the resolved
list, which the parsers guarantee to be non-empty on success) or use the
single input URL unchanged.  The library-append and Save I/O are outside
the resolution logic the claims concern. -/
def AddStation (resolve : String → Except ParseError (List String))
    (now : ℚ) (station : RadioStation) : Except ParseError RadioStation :=
  let station := { station with addedAt := now }
  if isManifestURL station.url then
    match resolve station.url with
    | .error e => .error e
    | .ok streamURLs =>
        .ok { station with streamURLs := streamURLs, streamURL := streamURLs.headD "" }
  else
    .ok { station with streamURL := station.url, streamURLs := [station.url] }

deriving instance DecidableEq for Except

example : parsePLS ["File1=http://a/stream", "File2=http://b/stream"]
    = .ok ["http://a/stream", "http://b/stream"] := by decide

example : parseM3U ["#EXTINF:-1,Foo", "http://x/stream"] = .ok ["http://x/stream"] := by
  decide

example : isManifestURL "http://example.com/stream.pls.mp3" = true := by decide

example : isManifestBySuffix "/stream.pls.mp3" = false := by decide

example : plsLineURL "Filename=http://a/stream" = some "http://a/stream" := by decide

example : plsLineURLNumeric "Filename=http://a/stream" = none := by decide

/-! ## Playback engine state (AudioPlayer) -/

/-- Embedding of beep.Ctrl as the engine uses it: the pause flag of the
live playback graph (the wrapped streamer itself carries no engine
state the claims touch). -/
structure Ctrl where
  paused : Bool
  deriving DecidableEq, Repr

/-- Embedding of the AudioPlayer struct.  Timestamps and durations are
rational seconds; the mixer is the list of attached playback chains
(one unit per attachment); audioSamples is nil (none) until the sample
tap first publishes a snapshot. -/
structure AudioPlayer where
  ctrl : Option Ctrl
  mixer : List Unit
  isPlaying : Bool
  isPaused : Bool
  currentSong : String
  speakerInit : Bool
  startTime : ℚ
  pausedTime : ℚ
  duration : ℚ
  audioSamples : Option (List ℚ)
  deriving DecidableEq

/-- State produced by NewAudioPlayer: no control handle, empty mixer,
both flags false, zero-valued timing fields, no snapshot yet. -/
def newAudioPlayer : AudioPlayer :=
  { ctrl := none, mixer := [], isPlaying := false, isPaused := false,
    currentSong := "", speakerInit := true, startTime := 0, pausedTime := 0,
    duration := 0, audioSamples := none }

/-- The state mutation playDirectly performs once decoding succeeded at
time 'now': install a fresh un-paused control, set the flags, record the
song, reset the timing fields, and attach the chain to the mixer. -/
def startSession (s : AudioPlayer) (song : String) (now : ℚ) : AudioPlayer :=
  { s with ctrl := some { paused := false }, isPlaying := true, isPaused := false,
           currentSong := song, startTime := now, pausedTime := 0,
           mixer := s.mixer ++ [()] }

/-- Embedding of Pause at wall-clock time 'now': only effective with a
control handle present, playing and not paused; accrues now - startTime
into pausedTime and rebases startTime. -/
def Pause (s : AudioPlayer) (now : ℚ) : AudioPlayer :=
  match s.ctrl with
  | some c =>
    if s.isPlaying && !s.isPaused then
      { s with ctrl := some { c with paused := true }, isPaused := true,
               pausedTime := s.pausedTime + (now - s.startTime), startTime := now }
    else s
  | none => s

/-- Embedding of Resume at wall-clock time 'now': only effective with a
control handle present, playing and paused; rebases startTime. -/
def Resume (s : AudioPlayer) (now : ℚ) : AudioPlayer :=
  match s.ctrl with
  | some c =>
    if s.isPlaying && s.isPaused then
      { s with ctrl := some { c with paused := false }, isPaused := false,
               startTime := now }
    else s
  | none => s

/-- Embedding of TogglePause at wall-clock time 'now'. -/
def TogglePause (s : AudioPlayer) (now : ℚ) : AudioPlayer :=
  match s.ctrl with
  | some c =>
    if s.isPlaying then
      if s.isPaused then
        { s with ctrl := some { c with paused := false }, isPaused := false,
                 startTime := now }
      else
        { s with ctrl := some { c with paused := true }, isPaused := true,
                 pausedTime := s.pausedTime + (now - s.startTime), startTime := now }
    else s
  | none => s

/-- Embedding of Stop: drop the control handle, clear the mixer, clear
both flags and the current song.  Timing fields, the configured duration
and the published snapshot are left as they are. -/
def Stop (s : AudioPlayer) : AudioPlayer :=
  { s with ctrl := none, mixer := [], isPlaying := false, isPaused := false,
           currentSong := "" }

/-- The completion callback run by the mixer at natural end-of-stream:
clears both flags (resource closing has no counterpart in the model). -/
def finishCallback (s : AudioPlayer) : AudioPlayer :=
  { s with isPlaying := false, isPaused := false }

/-- Embedding of IsPlaying: with a live control the sink-level paused
flag is consulted; otherwise the cached flag is returned. -/
def IsPlaying (s : AudioPlayer) : Bool :=
  match s.ctrl with
  | some c => s.isPlaying && !c.paused
  | none => s.isPlaying

/-- Embedding of IsPaused. -/
def IsPaused (s : AudioPlayer) : Bool :=
  match s.ctrl with
  | some c => c.paused
  | none => false

/-- Embedding of SetDuration. -/
def SetDuration (s : AudioPlayer) (d : ℚ) : AudioPlayer :=
  { s with duration := d }

/-- Embedding of GetDuration. -/
def GetDuration (s : AudioPlayer) : ℚ :=
  s.duration

/-- Embedding of GetPosition at wall-clock time 'now': 0 when neither
playing nor paused, the accrued pausedTime when paused, and pausedTime
plus time since startTime otherwise. -/
def GetPosition (s : AudioPlayer) (now : ℚ) : ℚ :=
  if !s.isPlaying && !s.isPaused then 0
  else if s.isPaused then s.pausedTime
  else s.pausedTime + (now - s.startTime)

/-- Embedding of GetProgress at wall-clock time 'now'. -/
def GetProgress (s : AudioPlayer) (now : ℚ) : ℚ :=
  let position := GetPosition s now
  let duration := GetDuration s
  if duration ≤ 0 then 0
  else
    let progress := position / duration
    let progress := if 1 < progress then 1 else progress
    if progress < 0 then 0 else progress

/-- Embedding of GetAudioSamples: a zero vector of 24 entries when no
snapshot has been published, else a copy of the stored snapshot (copy
semantics is implicit in the purely functional embedding). -/
def GetAudioSamples (s : AudioPlayer) : List ℚ :=
  match s.audioSamples with
  | none => List.replicate 24 0
  | some l => l

/-- Embedding of filepath.Ext: the suffix of the path starting at the
final dot of the final slash-separated element, empty when that element
has no dot. -/
def pathExt (path : String) : String :=
  let revBase := path.toList.reverse.takeWhile (fun c => c ≠ '/')
  if revBase.contains '.' then
    ((revBase.takeWhile (fun c => c ≠ '.')) ++ ['.']).reverse.asString
  else ""

/-- Embedding of isFileSupported: lower-cased extension among
.mp3 / .wav / .flac / .ogg. -/
def isFileSupported (path : String) : Bool :=
  let ext := ((pathExt path).toList.map Char.toLower).asString
  ext = ".mp3" || ext = ".wav" || ext = ".flac" || ext = ".ogg"

/-- Whether Play treats the argument as a URL (strings.HasPrefix on
the two schemes). -/
def isURLPath (path : String) : Bool :=
  strStartsWith path "http://" || strStartsWith path "https://"

example : pathExt "/music/track.aac" = ".aac" := by decide
example : isFileSupported "/music/Track.MP3" = true := by decide
example : isFileSupported "/music/track.aac" = false := by decide
example : isURLPath "https://example.com/radio" = true := by decide

/-! ## Multi-URL fallback (playWithFallback / PlayRadioStation / Play) -/

/-- The error playWithFallback returns once the whole candidate list is
exhausted: fmt.Errorf wrapping the last playDirectly error ('none' can
only occur for an empty candidate list, where Go wraps a nil error). -/
inductive FallbackError (ε : Type) where
  | allFailed (last : Option ε)
  deriving DecidableEq, Repr

/-- Loop body of playWithFallback.  'attempt' is the outcome oracle for
playDirectly on each URL (none = success); the second result component
is the list of URLs attempted, in order, for use in the theorems about
attempt order.  The second argument carries Go's lastError variable. -/
def playWithFallbackGo {ε : Type} (attempt : String → Option ε) :
    List String → Option ε → Option (FallbackError ε) × List String
  | [], lastError => (some (.allFailed lastError), [])
  | url :: rest, _ =>
    match attempt url with
    | none => (none, [url])
    | some e =>
      let r := playWithFallbackGo attempt rest (some e)
      (r.1, url :: r.2)

/-- Embedding of playWithFallback: try the candidates in order, return
at the first success, otherwise fail wrapping the last error. -/
def playWithFallback {ε : Type} (attempt : String → Option ε)
    (urls : List String) : Option (FallbackError ε) × List String :=
  playWithFallbackGo attempt urls none

/-- The candidate list PlayRadioStation builds: the stored fallback list
when non-empty, else the single primary stream URL when non-empty, else
the raw input URL. -/
def stationCandidateURLs (station : RadioStation) : List String :=
  if !station.streamURLs.isEmpty then station.streamURLs
  else if station.streamURL ≠ "" then [station.streamURL]
  else [station.url]

/-- Errors of the Play entry points.  unsupportedFormat carries the
extension from the pre-I/O check; stationNil is PlayRadioStation's nil
guard; allFailed is the exhausted-fallback error. -/
inductive PlayError (ε : Type) where
  | unsupportedFormat (ext : String)
  | stationNil
  | allFailed (last : Option ε)
  deriving DecidableEq, Repr

/-- Embedding of PlayRadioStation ('none' models a nil station
pointer): select the candidate list and delegate to playWithFallback. -/
def PlayRadioStation {ε : Type} (attempt : String → Option ε)
    (station : Option RadioStation) : Option (PlayError ε) × List String :=
  match station with
  | none => (some .stationNil, [])
  | some st =>
    match playWithFallback attempt (stationCandidateURLs st) with
    | (none, tried) => (none, tried)
    | (some (.allFailed e), tried) => (some (.allFailed e), tried)

/-- Embedding of Play.  The extension check runs before anything else;
only past it is the previous session stopped.  Everything after the
Stop (URL fallback or direct local playback, both of which perform I/O)
is modelled by the oracle 'rest', which receives the stopped state. -/
def Play {ε : Type} (rest : AudioPlayer → String → AudioPlayer × Option (PlayError ε))
    (s : AudioPlayer) (filePath : String) : AudioPlayer × Option (PlayError ε) :=
  if !isURLPath filePath && !isFileSupported filePath then
    (s, some (.unsupportedFormat (pathExt filePath)))
  else
    rest (Stop s) filePath

/-! ## Sample tap (SampleCaptureStreamer) -/

/-- Embedding of the SampleCaptureStreamer's own mutable state: the
mono accumulation buffer and its trigger size (1024 at construction). -/
structure TapState where
  sampleBuffer : List ℚ
  bufferSize : ℕ
  deriving DecidableEq

/-- State produced by NewSampleCaptureStreamer. -/
def newSampleCapture : TapState :=
  { sampleBuffer := [], bufferSize := 1024 }

/-- Outcome of one pull on the wrapped streamer: the returned count and
ok flag, and the stereo frames it wrote into the sample slice (the
first n entries are meaningful). -/
structure StreamResult where
  n : ℕ
  ok : Bool
  frames : List (ℚ × ℚ)
  deriving DecidableEq

/-- Mixing of stereo frames to mono by averaging the two channels. -/
def mixDown (frames : List (ℚ × ℚ)) : List ℚ :=
  frames.map (fun f => (f.1 + f.2) / 2)

/-- Embedding of analyzeAndStore over the filled accumulation buffer
'buf': split into 24 contiguous bands of length len/24 (truncated), and
publish the per-band RMS vector into the player's audioSamples.  The
float64 math.Sqrt is the explicit parameter 'sqrtQ'.  Returns the
player unchanged when the buffer is shorter than 24 samples. -/
def analyzeAndStore (sqrtQ : ℚ → ℚ) (buf : List ℚ) (ap : AudioPlayer) : AudioPlayer :=
  let numBands := 24
  let bandSize := buf.length / numBands
  if bandSize = 0 then ap
  else
    let amplitudes := (List.range numBands).map (fun band =>
      let startIdx := band * bandSize
      let endIdx := min (startIdx + bandSize) buf.length
      let seg := (buf.drop startIdx).take (endIdx - startIdx)
      sqrtQ ((seg.map (fun x => x * x)).sum / ((endIdx - startIdx : ℕ) : ℚ)))
    { ap with audioSamples := some amplitudes }

/-- Embedding of SampleCaptureStreamer.Stream for one pull whose
wrapped-streamer outcome is 'res': the outcome is passed through
unchanged; on a successful non-empty pull the mono mix of the returned
frames is appended to the accumulation buffer, and once the buffer
reaches bufferSize it is analyzed, published and cleared. -/
def streamStep (sqrtQ : ℚ → ℚ) (t : TapState) (ap : AudioPlayer)
    (res : StreamResult) : StreamResult × TapState × AudioPlayer :=
  if res.ok && decide (0 < res.n) then
    let buf := t.sampleBuffer ++ mixDown (res.frames.take res.n)
    if t.bufferSize ≤ buf.length then
      (res, { t with sampleBuffer := [] }, analyzeAndStore sqrtQ buf ap)
    else
      (res, { t with sampleBuffer := buf }, ap)
  else
    (res, t, ap)

/-- Embedding of SampleCaptureStreamer.Err: the wrapped streamer's
error, unchanged ('none' for a healthy stream, 'some msg' for an
error). -/
def streamErrQuery (wrappedErr : Option String) : Option String :=
  wrappedErr

/-- Shape invariant of the published snapshot: when present, it has
exactly 24 entries, all non-negative. -/
def StoreOK (st : Option (List ℚ)) : Prop :=
  ∀ l, st = some l → l.length = 24 ∧ ∀ x ∈ l, 0 ≤ x

/-! ## Theorems for the claims -/

/-- C1: position tracking across pause/resume.  GetPosition is 0 in the
stopped encoding (both flags false), the accrued accumulator when
paused, accumulator plus time since startTime when playing; after a
session started at t0, paused at t1 and resumed at t2, the position
read at t3 is (t1 - t0) + (t3 - t2), independent of the pause length;
in particular the 2.0s-play / 1.0s-pause / 1.5s-play run reads 3.5s.
TogglePause dispatches to exactly Pause or Resume. -/
theorem claim_C1_position_tracking :
    (∀ (s : AudioPlayer) (now : ℚ),
        GetPosition { s with isPlaying := false, isPaused := false } now = 0)
    ∧ (∀ (s : AudioPlayer) (now : ℚ),
        GetPosition { s with isPlaying := true, isPaused := true } now = s.pausedTime)
    ∧ (∀ (s : AudioPlayer) (now : ℚ),
        GetPosition { s with isPlaying := true, isPaused := false } now
          = s.pausedTime + (now - s.startTime))
    ∧ (∀ (s : AudioPlayer) (song : String) (t0 t1 t2 t3 : ℚ),
        GetPosition (Resume (Pause (startSession s song t0) t1) t2) t3
          = (t1 - t0) + (t3 - t2))
    ∧ GetPosition (Resume (Pause (startSession newAudioPlayer "song.mp3" 0) 2) 3) (9/2)
        = 7/2
    ∧ (∀ (s : AudioPlayer) (now : ℚ),
        TogglePause s now = if s.isPaused then Resume s now else Pause s now) := by
  refine ⟨?_, ?_, ?_, ?_, ?_, ?_⟩
  · intro s now; simp [GetPosition]
  · intro s now; simp [GetPosition]
  · intro s now; simp [GetPosition]
  · intro s song t0 t1 t2 t3
    simp [startSession, Pause, Resume, GetPosition]
  · simp [startSession, Pause, Resume, GetPosition, newAudioPlayer]
    norm_num
  · intro s now
    cases hc : s.ctrl with
    | none => cases hp : s.isPaused <;> simp [TogglePause, Pause, Resume, hc]
    | some c =>
      cases hp : s.isPaused <;> cases hy : s.isPlaying <;>
        simp [TogglePause, Pause, Resume, hc, hp, hy]

/-- C8: after Stop the position reads 0 and both queries report false,
and a second Stop leaves every field of the player state unchanged. -/
theorem claim_C8_stop_idempotent :
    (∀ (s : AudioPlayer) (now : ℚ), GetPosition (Stop s) now = 0)
    ∧ (∀ s : AudioPlayer, IsPlaying (Stop s) = false)
    ∧ (∀ s : AudioPlayer, IsPaused (Stop s) = false)
    ∧ (∀ s : AudioPlayer, Stop (Stop s) = Stop s) := by
  refine ⟨?_, ?_, ?_, ?_⟩
  · intro s now; simp [GetPosition, Stop]
  · intro s; simp [IsPlaying, Stop]
  · intro s; simp [IsPaused, Stop]
  · intro s; rfl

/-- C3: progress is 0 whenever the configured duration is non-positive
(the unknown-duration radio case), always lies in [0, 1], and is
exactly 1 whenever the position exceeds a positive duration. -/
theorem claim_C3_progress_clamped :
    (∀ (s : AudioPlayer) (now : ℚ), GetDuration s ≤ 0 → GetProgress s now = 0)
    ∧ (∀ (s : AudioPlayer) (now : ℚ),
        0 ≤ GetProgress s now ∧ GetProgress s now ≤ 1)
    ∧ (∀ (s : AudioPlayer) (now : ℚ),
        0 < GetDuration s → GetDuration s < GetPosition s now →
        GetProgress s now = 1) := by
  refine ⟨?_, ?_, ?_⟩
  · intro s now h
    simp only [GetProgress]
    rw [if_pos h]
  · intro s now
    simp only [GetProgress]
    split_ifs <;> constructor <;> linarith
  · intro s now hd hp
    have h1 : (1 : ℚ) < GetPosition s now / GetDuration s :=
      (one_lt_div hd).mpr hp
    simp only [GetProgress]
    rw [if_neg (not_le.mpr hd), if_pos h1, if_neg (by norm_num)]

/-- Witness for C3: the fresh player has duration 0 and reports
progress 0; a playing player with duration 2 read at position 5
reports progress exactly 1. -/
theorem claim_C3_progress_clamped_check :
    GetProgress newAudioPlayer 5 = 0
    ∧ GetProgress { newAudioPlayer with isPlaying := true, duration := 2 } 5 = 1 :=
  ⟨claim_C3_progress_clamped.1 newAudioPlayer 5 (by simp [GetDuration, newAudioPlayer]),
   claim_C3_progress_clamped.2.2 { newAudioPlayer with isPlaying := true, duration := 2 }
     5 (by simp [GetDuration, newAudioPlayer])
     (by simp [GetDuration, GetPosition, newAudioPlayer]; norm_num)⟩

/-- C10: Play on a local path with an unsupported extension fails
before any I/O or teardown — the oracle for everything past the check
is never consulted and the input state is returned untouched, so an
existing session keeps playing. -/
theorem claim_C10_unsupported_no_teardown (ε : Type)
    (rest : AudioPlayer → String → AudioPlayer × Option (PlayError ε))
    (s : AudioPlayer) (filePath : String)
    (hURL : isURLPath filePath = false) (hExt : isFileSupported filePath = false) :
    Play rest s filePath = (s, some (.unsupportedFormat (pathExt filePath))) := by
  simp [Play, hURL, hExt]

/-- The player mid-session that the C10 witness uses: a local track
started at t = 5 is playing. -/
def busyPlayer : AudioPlayer := startSession newAudioPlayer "/music/current.mp3" 5

/-- Witness for C10: with a session live, Play of an .aac path returns
the unsupported-format error and the untouched busy state. -/
theorem claim_C10_unsupported_no_teardown_check :
    IsPlaying busyPlayer = true
    ∧ Play (fun st _ => (st, (none : Option (PlayError Unit)))) busyPlayer "/music/track.aac"
        = (busyPlayer, some (.unsupportedFormat ".aac")) := by
  have h := claim_C10_unsupported_no_teardown Unit (fun st _ => (st, none))
    busyPlayer "/music/track.aac" (by decide) (by decide)
  rw [show pathExt "/music/track.aac" = ".aac" from by decide] at h
  exact ⟨rfl, h⟩

/-- Auxiliary: a list whose optional last element is 'some a' splits
as an initial segment followed by [a]. -/
theorem exists_append_of_getLast (l : List String) :
    ∀ a : String, l.getLast? = some a → ∃ t, l = t ++ [a] := by
  induction l with
  | nil => intro a h; simp at h
  | cons x xs ih =>
    intro a h
    cases xs with
    | nil =>
      refine ⟨[], ?_⟩
      simp at h
      simp [h]
    | cons y ys =>
      obtain ⟨t, ht⟩ := ih a (by simpa [List.getLast?_cons_cons] using h)
      exact ⟨x :: t, by simp [ht]⟩

/-- Auxiliary for C2: when every URL of the list fails, the fallback
loop attempts all of them in order and returns the error wrapping the
outcome of the last one, whatever the incoming lastError accumulator. -/
theorem fallbackGo_all_fail (ε : Type) (attempt : String → Option ε) (ulast : String) :
    ∀ (init : List String) (acc : Option ε),
      (∀ u ∈ init ++ [ulast], attempt u ≠ none) →
      playWithFallbackGo attempt (init ++ [ulast]) acc
        = (some (.allFailed (attempt ulast)), init ++ [ulast]) := by
  intro init
  induction init with
  | nil =>
    intro acc hfail
    obtain ⟨e, he⟩ : ∃ e, attempt ulast = some e := by
      cases h : attempt ulast with
      | none => exact absurd h (hfail ulast (by simp))
      | some e => exact ⟨e, rfl⟩
    simp [playWithFallbackGo, he]
  | cons u init2 ih =>
    intro acc hfail
    obtain ⟨e, he⟩ : ∃ e, attempt u = some e := by
      cases h : attempt u with
      | none => exact absurd h (hfail u (by simp))
      | some e => exact ⟨e, rfl⟩
    have hr := ih (some e) (fun x hx => hfail x (by simp at hx ⊢; tauto))
    simp [playWithFallbackGo, he, hr]

/-- Auxiliary for C2: with a block of failing URLs followed by a
succeeding one, the fallback loop attempts exactly the failing block
plus the first success, in order, and reports success; the candidates
after the success are never attempted. -/
theorem fallbackGo_first_success (ε : Type) (attempt : String → Option ε)
    (good : String) (post : List String) (hgood : attempt good = none) :
    ∀ (pre : List String) (acc : Option ε),
      (∀ u ∈ pre, attempt u ≠ none) →
      playWithFallbackGo attempt (pre ++ good :: post) acc = (none, pre ++ [good]) := by
  intro pre
  induction pre with
  | nil => intro acc _; simp [playWithFallbackGo, hgood]
  | cons u pre2 ih =>
    intro acc hfail
    obtain ⟨e, he⟩ : ∃ e, attempt u = some e := by
      cases h : attempt u with
      | none => exact absurd h (hfail u (by simp))
      | some e => exact ⟨e, rfl⟩
    have hr := ih (some e) (fun x hx => hfail x (by simp [hx]))
    simp [playWithFallbackGo, he, hr]

/-- C2: multi-URL fallback.  For a list of failing candidates followed
by a working one, playWithFallback succeeds having attempted exactly
the prefix plus the working candidate in list order; when every
candidate fails it attempts all of them in order and returns the error
wrapping the last candidate's failure; PlayRadioStation inherits the
exhaustion behavior on its candidate list. -/
theorem claim_C2_fallback_order :
    (∀ (ε : Type) (attempt : String → Option ε)
        (pre : List String) (good : String) (post : List String),
        (∀ u ∈ pre, attempt u ≠ none) → attempt good = none →
        playWithFallback attempt (pre ++ good :: post) = (none, pre ++ [good]))
    ∧ (∀ (ε : Type) (attempt : String → Option ε) (urls : List String) (ulast : String),
        urls.getLast? = some ulast → (∀ u ∈ urls, attempt u ≠ none) →
        playWithFallback attempt urls = (some (.allFailed (attempt ulast)), urls))
    ∧ (∀ (ε : Type) (attempt : String → Option ε) (st : RadioStation) (ulast : String),
        (stationCandidateURLs st).getLast? = some ulast →
        (∀ u ∈ stationCandidateURLs st, attempt u ≠ none) →
        PlayRadioStation attempt (some st)
          = (some (.allFailed (attempt ulast)), stationCandidateURLs st)) := by
  refine ⟨?_, ?_, ?_⟩
  · intro ε attempt pre good post hfail hgood
    exact fallbackGo_first_success ε attempt good post hgood pre none hfail
  · intro ε attempt urls ulast hlast hfail
    obtain ⟨init, rfl⟩ := exists_append_of_getLast urls ulast hlast
    exact fallbackGo_all_fail ε attempt ulast init none hfail
  · intro ε attempt st ulast hlast hfail
    obtain ⟨init, heq⟩ := exists_append_of_getLast (stationCandidateURLs st) ulast hlast
    have h := fallbackGo_all_fail ε attempt ulast init none (heq ▸ hfail)
    rw [← heq] at h
    simp only [PlayRadioStation, playWithFallback] at h ⊢
    rw [h]

/-- The outcome oracle the C2 witness uses: only the URL named
http://good connects. -/
def urlAttempt : String → Option Unit :=
  fun u => if u = "http://good" then none else some ()

/-- Witness for C2: with two failing URLs before a working third, the
fallback attempts exactly the three in order and succeeds; with only
the two failing ones it attempts both and reports the second one's
failure. -/
theorem claim_C2_fallback_order_check :
    playWithFallback urlAttempt ["http://bad1", "http://bad2", "http://good"]
      = (none, ["http://bad1", "http://bad2", "http://good"])
    ∧ playWithFallback urlAttempt ["http://bad1", "http://bad2"]
      = (some (.allFailed (urlAttempt "http://bad2")), ["http://bad1", "http://bad2"]) :=
  ⟨claim_C2_fallback_order.1 Unit urlAttempt ["http://bad1", "http://bad2"]
      "http://good" [] (by decide) (by decide),
   claim_C2_fallback_order.2.1 Unit urlAttempt ["http://bad1", "http://bad2"]
      "http://bad2" (by decide) (by decide)⟩

/-- Auxiliary: a Boolean-prefix of a Boolean-prefix is one of the whole
list. -/
theorem isPrefixOf_trans_chars :
    ∀ {q p l : List Char}, p.isPrefixOf q = true → q.isPrefixOf l = true →
      p.isPrefixOf l = true := by
  intro q
  induction q with
  | nil =>
    intro p l h1 _
    cases p with
    | nil => cases l <;> simp [List.isPrefixOf]
    | cons a as => simp [List.isPrefixOf] at h1
  | cons b bs ih =>
    intro p l h1 h2
    cases p with
    | nil => simp [List.isPrefixOf]
    | cons a as =>
      cases l with
      | nil => simp [List.isPrefixOf] at h2
      | cons c cs =>
        simp only [List.isPrefixOf, Bool.and_eq_true, beq_iff_eq] at h1 h2 ⊢
        exact ⟨h1.1.trans h2.1, ih h1.2 h2.2⟩

/-- Auxiliary: a pattern that is a Boolean-prefix of some tail of 'l'
occurs as a contiguous run in 'l'. -/
theorem listContains_of_isPrefixOf_drop (pat : List Char) :
    ∀ (l : List Char) (k : ℕ), pat.isPrefixOf (l.drop k) = true →
      listContains pat l = true := by
  intro l
  induction l with
  | nil =>
    intro k h
    cases pat with
    | nil => simp [listContains]
    | cons a as => simp [List.isPrefixOf] at h
  | cons c t ih =>
    intro k h
    cases k with
    | zero =>
      simp only [List.drop_zero] at h
      simp [listContains, h]
    | succ k2 =>
      simp only [List.drop_succ_cons] at h
      simp [listContains, ih k2 h]

/-- Auxiliary: a string suffix also occurs as a contiguous run, so any
URL the spec's suffix heuristic accepts is also accepted by the code's
substring test. -/
theorem strContains_of_strEndsWith (s pat : String) (h : strEndsWith s pat = true) :
    strContains s pat = true :=
  listContains_of_isPrefixOf_drop pat.toList s.toList
    (s.toList.length - pat.toList.length) h

/-- Radio station record the C4 counterexample adds: its URL's path is
/stream.pls.mp3, which does not end in .pls, .m3u or .m3u8. -/
def plsMp3Station : RadioStation :=
  { name := "X", url := "http://example.com/stream.pls.mp3", streamURL := "",
    streamURLs := [], genre := "", addedAt := 0, lastPlayed := 0 }

/-- Counterexample to C4 as stated: the claim's suffix rule rejects the
URL http://example.com/stream.pls.mp3 (its path /stream.pls.mp3 ends in
.mp3), yet the code's substring test classifies it as a manifest, and
AddStation consequently goes down the manifest-resolution branch — here
surfacing the fetch failure instead of storing the single input URL. -/
theorem claim_C4_suffix_counterexample :
    isManifestBySuffix "/stream.pls.mp3" = false
    ∧ isManifestURL "http://example.com/stream.pls.mp3" = true
    ∧ AddStation (fun _ => Except.error ParseError.fetchFailed) 0 plsMp3Station
        = Except.error ParseError.fetchFailed := by
  refine ⟨by decide, by decide, by decide⟩

/-- C4 amended: manifest detection is a substring test — a URL is
treated as a playlist manifest iff it contains .pls or .m3u anywhere
(which subsumes every path ending in .pls, .m3u or .m3u8, but also
fires on non-suffix occurrences); for every URL the test rejects,
AddStation stores the single input URL unchanged as the one-element
candidate list. -/
theorem claim_C4_contains_amended :
    (∀ url : String, strEndsWith url ".pls" = true → isManifestURL url = true)
    ∧ (∀ url : String, strEndsWith url ".m3u" = true → isManifestURL url = true)
    ∧ (∀ url : String, strEndsWith url ".m3u8" = true → isManifestURL url = true)
    ∧ (∀ (resolve : String → Except ParseError (List String)) (now : ℚ)
         (station : RadioStation), isManifestURL station.url = false →
         AddStation resolve now station
           = .ok { station with addedAt := now, streamURL := station.url,
                                streamURLs := [station.url] }) := by
  refine ⟨?_, ?_, ?_, ?_⟩
  · intro url h
    simp [isManifestURL, strContains_of_strEndsWith url ".pls" h]
  · intro url h
    simp [isManifestURL, strContains_of_strEndsWith url ".m3u" h]
  · intro url h
    have h8 : (".m3u8".toList).isPrefixOf
        (url.toList.drop (url.toList.length - ".m3u8".toList.length)) = true := h
    have h4 : (".m3u".toList).isPrefixOf
        (url.toList.drop (url.toList.length - ".m3u8".toList.length)) = true :=
      isPrefixOf_trans_chars (by decide) h8
    have hc : strContains url ".m3u" = true :=
      listContains_of_isPrefixOf_drop ".m3u".toList url.toList _ h4
    simp [isManifestURL, hc]
  · intro resolve now station h
    simp [AddStation, h]

/-- Radio station record with a direct (non-manifest) stream URL, used
by the C4 witness. -/
def directStation : RadioStation :=
  { name := "D", url := "http://example.com/stream", streamURL := "",
    streamURLs := [], genre := "", addedAt := 0, lastPlayed := 0 }

/-- Witness for C4 amended: a URL ending in .m3u8 is detected as a
manifest, and adding a direct stream URL stores it unchanged as the
one-element candidate list. -/
theorem claim_C4_contains_amended_check :
    isManifestURL "http://example.com/radio.m3u8" = true
    ∧ AddStation (fun _ => Except.error ParseError.fetchFailed) 0 directStation
        = .ok { directStation with addedAt := 0, streamURL := directStation.url,
                                   streamURLs := [directStation.url] } :=
  ⟨claim_C4_contains_amended.2.2.1 "http://example.com/radio.m3u8" (by decide),
   claim_C4_contains_amended.2.2.2 (fun _ => Except.error ParseError.fetchFailed) 0
     directStation (by decide)⟩

/-- Auxiliary: a list with a Boolean-prefix 'p' is 'p' followed by the
remainder obtained by dropping the length of 'p'. -/
theorem eq_append_drop_of_isPrefixOf :
    ∀ {p l : List Char}, p.isPrefixOf l = true → l = p ++ l.drop p.length := by
  intro p
  induction p with
  | nil => intro l _; simp
  | cons a as ih =>
    intro l h
    cases l with
    | nil => simp [List.isPrefixOf] at h
    | cons b bs =>
      simp only [List.isPrefixOf, Bool.and_eq_true, beq_iff_eq] at h
      obtain ⟨hab, h2⟩ := h
      subst hab
      simp only [List.length_cons, List.drop_succ_cons, List.cons_append, List.cons.injEq]
      exact ⟨trivial, ih h2⟩

/-- Auxiliary: a contiguous one-element run is just membership. -/
theorem listContains_singleton_of_mem (c : Char) :
    ∀ l : List Char, c ∈ l → listContains [c] l = true := by
  intro l
  induction l with
  | nil => intro h; simp at h
  | cons d t ih =>
    intro h
    rcases List.mem_cons.mp h with rfl | hm
    · simp [listContains, List.isPrefixOf]
    · simp [listContains, ih hm]

/-- Auxiliary: elements picked by takeWhile satisfy the predicate. -/
theorem pred_of_mem_takeWhile {α : Type} (p : α → Bool) :
    ∀ (l : List α) (a : α), a ∈ l.takeWhile p → p a = true := by
  intro l
  induction l with
  | nil => intro a h; simp at h
  | cons b t ih =>
    intro a h
    cases hpb : p b with
    | false => rw [List.takeWhile_cons, hpb] at h; simp at h
    | true =>
      rw [List.takeWhile_cons, hpb] at h
      rcases List.mem_cons.mp h with rfl | hm
      · exact hpb
      · exact ih a hm

/-- Auxiliary: afterFirst skips over a block free of the separator and
drops the first separator itself. -/
theorem afterFirst_append (sep : Char) :
    ∀ (p rest : List Char), (∀ c ∈ p, c ≠ sep) →
      afterFirst sep (p ++ sep :: rest) = rest := by
  intro p
  induction p with
  | nil => intro rest _; simp [afterFirst]
  | cons c p2 ih =>
    intro rest h
    have hc : c ≠ sep := h c (by simp)
    simp only [List.cons_append, afterFirst, if_neg hc]
    exact ih rest (fun x hx => h x (by simp [hx]))

/-- Auxiliary for C5: every line the claim's numeric FileN=value rule
accepts is accepted, with the same extracted URL, by the code's looser
File-prefix rule. -/
theorem plsLineURL_of_numeric (line v : String)
    (h : plsLineURLNumeric line = some v) : plsLineURL line = some v := by
  simp only [plsLineURLNumeric] at h
  set l := trimChars line with hldef
  set rest := l.drop 4 with hrestdef
  set digits := rest.takeWhile Char.isDigit with hdigitsdef
  cases hF : "File".toList.isPrefixOf l with
  | false => rw [hF] at h; simp at h
  | true =>
    rw [hF] at h
    simp only [if_true] at h
    cases htail : rest.drop digits.length with
    | nil => rw [htail] at h; simp at h
    | cons c value =>
      rw [htail] at h
      replace h : (if (c == '=' && (!digits.isEmpty && "http".toList.isPrefixOf value)) = true
          then some value.asString else none) = some v := h
      cases hcond : (c == '=' && (!digits.isEmpty && "http".toList.isPrefixOf value)) with
      | false => rw [hcond] at h; simp at h
      | true =>
        rw [hcond] at h
        simp only [if_true, Option.some_inj] at h
        obtain ⟨hc, hdig, hhttp⟩ : (c == '=') = true
            ∧ (!digits.isEmpty) = true
            ∧ ("http".toList.isPrefixOf value) = true := by
          simpa [Bool.and_eq_true] using hcond
        have hceq : c = '=' := beq_iff_eq.mp hc
        subst hceq
        obtain ⟨t, ht⟩ := List.takeWhile_prefix (p := Char.isDigit) (l := rest)
        rw [← hdigitsdef] at ht
        have hdrop : rest.drop digits.length = t := by
          rw [← ht, List.drop_left]
        have hrest : rest = digits ++ '=' :: value := by
          rw [← ht, hdrop.symm.trans htail]
        have hfour : "File".toList.length = 4 := rfl
        have hl : l = "File".toList ++ rest := by
          have he := eq_append_drop_of_isPrefixOf hF
          rw [hfour, ← hrestdef] at he
          exact he
        have hdecomp : l = ("File".toList ++ digits) ++ '=' :: value := by
          rw [hl, hrest, List.append_assoc]
        have hnotsep : ∀ ch ∈ "File".toList ++ digits, ch ≠ '=' := by
          intro ch hch
          rcases List.mem_append.mp hch with hcf | hcd
          · have hch4 : ch ∈ ['F', 'i', 'l', 'e'] := hcf
            have : ch = 'F' ∨ ch = 'i' ∨ ch = 'l' ∨ ch = 'e' := by simpa using hch4
            rcases this with rfl | rfl | rfl | rfl <;> decide
          · have hd := pred_of_mem_takeWhile Char.isDigit rest ch (hdigitsdef ▸ hcd)
            intro hcheq
            rw [hcheq] at hd
            exact absurd hd (by decide)
        have hC : listContains "=".toList l = true := by
          have hm : '=' ∈ l := by rw [hdecomp]; simp
          exact listContains_singleton_of_mem '=' l hm
        have hA : afterFirst '=' l = value := by
          rw [hdecomp]
          exact afterFirst_append '=' _ value hnotsep
        simp only [plsLineURL, ← hldef]
        simp [hF, hC, hA, hhttp, h]
        exact ⟨⟨by simpa using hF, by simpa using hC⟩, by simpa using hhttp⟩

/-- Counterexample to C5 as stated: the PLS line Filename=http://a/stream
is not of the numeric form FileN=value, so under the claim the body
below has zero matches and must fail; the code's parser nevertheless
accepts it and returns its URL. -/
theorem claim_C5_fileN_counterexample :
    plsLineURLNumeric "Filename=http://a/stream" = none
    ∧ parsePLS ["Filename=http://a/stream"] = .ok ["http://a/stream"] :=
  ⟨by decide, by decide⟩

/-- C5 amended: PLS parsing collects, in file order, the after-first-=
values of the trimmed lines that start with File (numeric N not
required — any characters, or none, may stand between File and =) and
contain =, provided the value starts with http; every line the claim's
FileN=value rule accepts is still accepted with the same URL; zero
qualifying lines is an error.  M3U parsing collects, in order, exactly
the trimmed non-empty non-# lines starting with http, with the same
zero-match failure mode. -/
theorem claim_C5_parse_amended :
    (∀ line v : String, plsLineURLNumeric line = some v → plsLineURL line = some v)
    ∧ parsePLS ["File1=http://a/stream", "File2=http://b/stream"]
        = .ok ["http://a/stream", "http://b/stream"]
    ∧ parseM3U ["#EXTINF:-1,Foo", "", "http://x/stream"] = .ok ["http://x/stream"]
    ∧ (∀ (lines urls : List String), parsePLS lines = .ok urls →
        urls = lines.filterMap plsLineURL)
    ∧ (∀ lines : List String, lines.filterMap plsLineURL = [] →
        parsePLS lines = .error .noStreamPLS)
    ∧ (∀ (lines urls : List String), parseM3U lines = .ok urls →
        urls = lines.filterMap m3uLineURL)
    ∧ (∀ lines : List String, lines.filterMap m3uLineURL = [] →
        parseM3U lines = .error .noStreamM3U) := by
  refine ⟨plsLineURL_of_numeric, by decide, by decide, ?_, ?_, ?_, ?_⟩
  · intro lines urls h
    simp only [parsePLS] at h
    cases he : (lines.filterMap plsLineURL).isEmpty with
    | true => rw [he] at h; simp at h
    | false => rw [he] at h; simp at h; exact h.symm
  · intro lines h
    simp [parsePLS, h]
  · intro lines urls h
    simp only [parseM3U] at h
    cases he : (lines.filterMap m3uLineURL).isEmpty with
    | true => rw [he] at h; simp at h
    | false => rw [he] at h; simp at h; exact h.symm
  · intro lines h
    simp [parseM3U, h]

/-- Witness for C5 amended: a numeric File1 line parses to its URL, and
a body with no qualifying line fails. -/
theorem claim_C5_parse_amended_check :
    plsLineURL "File1=http://a/stream" = some "http://a/stream"
    ∧ parsePLS ["Title1=Foo"] = .error .noStreamPLS :=
  ⟨claim_C5_parse_amended.1 "File1=http://a/stream" "http://a/stream" (by decide),
   claim_C5_parse_amended.2.2.2.2.1 ["Title1=Foo"] (by decide)⟩

/-- Auxiliary: analyzeAndStore preserves the snapshot shape invariant
whenever the square-root primitive preserves non-negativity, as Go's
math.Sqrt does on the non-negative mean squares fed to it. -/
theorem analyzeAndStore_storeOK (sqrtQ : ℚ → ℚ) (buf : List ℚ) (ap : AudioPlayer)
    (hs : ∀ x : ℚ, 0 ≤ x → 0 ≤ sqrtQ x) (h : StoreOK ap.audioSamples) :
    StoreOK (analyzeAndStore sqrtQ buf ap).audioSamples := by
  simp only [analyzeAndStore]
  split
  · exact h
  · intro l hl
    simp only [Option.some_inj] at hl
    subst hl
    constructor
    · simp
    · intro x hx
      simp only [List.mem_map] at hx
      obtain ⟨band, _, rfl⟩ := hx
      apply hs
      apply div_nonneg
      · apply List.sum_nonneg
        intro y hy
        simp only [List.mem_map] at hy
        obtain ⟨z, _, rfl⟩ := hy
        exact mul_self_nonneg z
      · exact Nat.cast_nonneg _

/-- Auxiliary: one Stream pull preserves the snapshot shape
invariant. -/
theorem streamStep_storeOK (sqrtQ : ℚ → ℚ) (t : TapState) (ap : AudioPlayer)
    (res : StreamResult) (hs : ∀ x : ℚ, 0 ≤ x → 0 ≤ sqrtQ x)
    (h : StoreOK ap.audioSamples) :
    StoreOK ((streamStep sqrtQ t ap res).2.2).audioSamples := by
  simp only [streamStep]
  split
  · split
    · exact analyzeAndStore_storeOK sqrtQ _ ap hs h
    · exact h
  · exact h

/-- C7: snapshot shape.  Reading with the invariant in force yields
exactly 24 non-negative values; the fresh player satisfies the
invariant and reads as 24 zeros; publishing via analyzeAndStore or a
full Stream pull preserves the invariant (given a non-negativity-
preserving square root, as math.Sqrt is on the non-negative inputs
involved). -/
theorem claim_C7_samples_shape :
    (∀ s : AudioPlayer, StoreOK s.audioSamples →
        (GetAudioSamples s).length = 24 ∧ ∀ x ∈ GetAudioSamples s, 0 ≤ x)
    ∧ GetAudioSamples newAudioPlayer = List.replicate 24 0
    ∧ StoreOK newAudioPlayer.audioSamples
    ∧ (∀ (sqrtQ : ℚ → ℚ) (buf : List ℚ) (ap : AudioPlayer),
        (∀ x : ℚ, 0 ≤ x → 0 ≤ sqrtQ x) → StoreOK ap.audioSamples →
        StoreOK (analyzeAndStore sqrtQ buf ap).audioSamples)
    ∧ (∀ (sqrtQ : ℚ → ℚ) (t : TapState) (ap : AudioPlayer) (res : StreamResult),
        (∀ x : ℚ, 0 ≤ x → 0 ≤ sqrtQ x) → StoreOK ap.audioSamples →
        StoreOK ((streamStep sqrtQ t ap res).2.2).audioSamples) := by
  refine ⟨?_, rfl, ?_, analyzeAndStore_storeOK, streamStep_storeOK⟩
  · intro s h
    cases hst : s.audioSamples with
    | none =>
      simp [GetAudioSamples, hst]
    | some l =>
      have := h l hst
      simpa [GetAudioSamples, hst] using this
  · intro l hl
    simp [newAudioPlayer] at hl

/-- Witness for C7: through the theorem, the fresh player reads 24
non-negative values. -/
theorem claim_C7_samples_shape_check :
    (GetAudioSamples newAudioPlayer).length = 24
    ∧ ∀ x ∈ GetAudioSamples newAudioPlayer, 0 ≤ x :=
  claim_C7_samples_shape.1 newAudioPlayer (fun _ hl => nomatch hl)

/-- Auxiliary: a successful non-empty pull that fills the accumulation
window hands the full buffer to analyzeAndStore and clears the
buffer, leaving the passed-through output untouched. -/
theorem streamStep_fill (sqrtQ : ℚ → ℚ) (t : TapState) (ap : AudioPlayer)
    (res : StreamResult) (hok : res.ok = true) (hn : 0 < res.n)
    (hfill : t.bufferSize ≤ (t.sampleBuffer ++ mixDown (res.frames.take res.n)).length) :
    (streamStep sqrtQ t ap res).2.2
        = analyzeAndStore sqrtQ (t.sampleBuffer ++ mixDown (res.frames.take res.n)) ap
      ∧ (streamStep sqrtQ t ap res).2.1.sampleBuffer = [] := by
  simp only [streamStep, hok, hn, Bool.true_and, decide_eq_true_eq, if_true]
  rw [if_pos hfill]
  exact ⟨rfl, rfl⟩

/-- C9: sample-tap transparency.  Every Stream pull returns exactly the
wrapped streamer's count, ok flag and sample contents; the error query
returns exactly the wrapped streamer's error; and when a successful
pull fills the accumulation window the player's snapshot is updated via
analyzeAndStore while the buffer is cleared — still without altering
the passed-through output. -/
theorem claim_C9_tap_transparent :
    (∀ (sqrtQ : ℚ → ℚ) (t : TapState) (ap : AudioPlayer) (res : StreamResult),
        (streamStep sqrtQ t ap res).1 = res)
    ∧ (∀ e : Option String, streamErrQuery e = e)
    ∧ (∀ (sqrtQ : ℚ → ℚ) (t : TapState) (ap : AudioPlayer) (res : StreamResult),
        res.ok = true → 0 < res.n →
        t.bufferSize ≤ (t.sampleBuffer ++ mixDown (res.frames.take res.n)).length →
        (streamStep sqrtQ t ap res).2.2
            = analyzeAndStore sqrtQ (t.sampleBuffer ++ mixDown (res.frames.take res.n)) ap
          ∧ (streamStep sqrtQ t ap res).2.1.sampleBuffer = []) := by
  refine ⟨?_, fun _ => rfl, ?_⟩
  · intro sqrtQ t ap res
    simp only [streamStep]
    split
    · split <;> rfl
    · rfl
  · exact streamStep_fill

/-- The wrapped-streamer outcome used by the C9 witness and the C6
counterexample trace: a full pull of 1024 frames of constant amplitude
1 on both channels. -/
def fullPull : StreamResult :=
  { n := 1024, ok := true, frames := List.replicate 1024 (1, 1) }

/-- Witness for C9: on the freshly constructed tap, the full pull is
passed through unchanged and fills the window exactly, so the
accumulation buffer comes back empty. -/
theorem claim_C9_tap_transparent_check :
    (streamStep (fun q => q) newSampleCapture newAudioPlayer fullPull).1 = fullPull
    ∧ (streamStep (fun q => q) newSampleCapture newAudioPlayer fullPull).2.1.sampleBuffer
        = [] :=
  ⟨claim_C9_tap_transparent.1 (fun q => q) newSampleCapture newAudioPlayer fullPull,
   (claim_C9_tap_transparent.2.2 (fun q => q) newSampleCapture newAudioPlayer fullPull
      rfl (by decide)
      (by
        simp only [newSampleCapture, fullPull, mixDown, List.nil_append, List.length_map,
          List.take_replicate, List.length_replicate, min_self]
        exact Nat.le_refl _)).2⟩

/-- Auxiliary: analyzing a constant buffer of m samples of value c
publishes 24 bands each worth the square root of c squared (the mean
square of a constant block is the square), provided m yields a
non-empty band size. -/
theorem analyzeAndStore_const (sqrtQ : ℚ → ℚ) (c : ℚ) (m : ℕ) (ap : AudioPlayer)
    (hm : m / 24 ≠ 0) :
    (analyzeAndStore sqrtQ (List.replicate m c) ap).audioSamples
      = some (List.replicate 24 (sqrtQ (c * c))) := by
  simp only [analyzeAndStore, List.length_replicate]
  rw [if_neg hm]
  show some _ = some _
  rw [Option.some_inj]
  rw [List.eq_replicate_iff]
  refine ⟨by simp, ?_⟩
  intro b hb
  simp only [List.mem_map, List.mem_range] at hb
  obtain ⟨band, hband, rfl⟩ := hb
  have h24 : 24 * (m / 24) ≤ m := by
    rw [mul_comm]
    exact Nat.div_mul_le_self m 24
  have h1 : band * (m / 24) + m / 24 ≤ m := by
    calc band * (m / 24) + m / 24 = (band + 1) * (m / 24) := by ring
    _ ≤ 24 * (m / 24) := Nat.mul_le_mul_right _ (Nat.succ_le_of_lt hband)
    _ ≤ m := h24
  rw [min_eq_left h1]
  have hsub : band * (m / 24) + m / 24 - band * (m / 24) = m / 24 := by omega
  rw [hsub, List.drop_replicate, List.take_replicate]
  have hmin2 : min (m / 24) (m - band * (m / 24)) = m / 24 := by omega
  rw [hmin2, List.map_replicate, List.sum_replicate, nsmul_eq_mul]
  congr 1
  have hk : ((m / 24 : ℕ) : ℚ) ≠ 0 := Nat.cast_ne_zero.mpr hm
  rw [mul_comm, mul_div_assoc, div_self hk, mul_one]

/-- The playback session of the C6 counterexample trace: a radio URL
started at t = 0 on the fresh player. -/
def radioSession : AudioPlayer :=
  startSession newAudioPlayer "http://radio.example/stream" 0

/-- The player after one full Stream pull of constant-amplitude audio
flowed through the sample tap: the tap's window fills and a non-zero
24-band snapshot is published. -/
def afterPull : AudioPlayer :=
  (streamStep (fun q => q) newSampleCapture radioSession fullPull).2.2

/-- The same player after the session is then stopped. -/
def stoppedAfterPull : AudioPlayer := Stop afterPull

/-- Counterexample to C6 as stated: after Stop no session is active,
yet GetAudioSamples still returns the non-zero snapshot published by
the previous session — the code never resets the snapshot to silence. -/
theorem claim_C6_reset_counterexample :
    IsPlaying stoppedAfterPull = false
    ∧ IsPaused stoppedAfterPull = false
    ∧ GetAudioSamples stoppedAfterPull ≠ List.replicate 24 0 := by
  have hone : ((1 : ℚ) + 1) / 2 = 1 := by norm_num
  have hbuf : newSampleCapture.sampleBuffer ++ mixDown (fullPull.frames.take fullPull.n)
      = List.replicate 1024 (1 : ℚ) := by
    simp [newSampleCapture, fullPull, mixDown, List.take_replicate, List.map_replicate, hone]
  have hstep := (streamStep_fill (fun q => q) newSampleCapture radioSession fullPull
    rfl (by decide) (by rw [hbuf]; simp [newSampleCapture])).1
  rw [hbuf] at hstep
  have hsa : afterPull.audioSamples = some (List.replicate 24 (1 : ℚ)) := by
    show ((streamStep (fun q => q) newSampleCapture radioSession fullPull).2.2).audioSamples
      = some (List.replicate 24 (1 : ℚ))
    rw [hstep, analyzeAndStore_const (fun q => q) 1 1024 radioSession (by norm_num)]
    norm_num
  have hga : GetAudioSamples stoppedAfterPull = List.replicate 24 (1 : ℚ) := by
    have hsp : stoppedAfterPull.audioSamples = some (List.replicate 24 (1 : ℚ)) := by
      show (Stop afterPull).audioSamples = _
      rw [show (Stop afterPull).audioSamples = afterPull.audioSamples from rfl, hsa]
    simp [GetAudioSamples, hsp]
  refine ⟨rfl, rfl, ?_⟩
  rw [hga]
  intro h
  have h1 : (1 : ℚ) ∈ List.replicate 24 (1 : ℚ) := by simp
  rw [h] at h1
  have := (List.mem_replicate.mp h1).2
  norm_num at this

/-- C6 amended: the amplitude snapshot persists across session
boundaries — neither Stop nor the natural-end completion callback
touches it, so after Stop a reader sees exactly the last published
amplitudes, and all-zeros only when no snapshot was ever published. -/
theorem claim_C6_snapshot_persists :
    (∀ s : AudioPlayer, (Stop s).audioSamples = s.audioSamples)
    ∧ (∀ s : AudioPlayer, GetAudioSamples (Stop s) = GetAudioSamples s)
    ∧ (∀ s : AudioPlayer, (finishCallback s).audioSamples = s.audioSamples)
    ∧ (∀ s : AudioPlayer, s.audioSamples = none →
        GetAudioSamples (Stop s) = List.replicate 24 0) := by
  refine ⟨fun s => rfl, fun s => rfl, fun s => rfl, ?_⟩
  intro s h
  simp [GetAudioSamples, Stop, h]

/-- Witness for C6 amended: on the never-played fresh player, reading
after Stop gives the 24 zeros. -/
theorem claim_C6_snapshot_persists_check :
    GetAudioSamples (Stop newAudioPlayer) = List.replicate 24 0 :=
  claim_C6_snapshot_persists.2.2.2 newAudioPlayer rfl
